import Mathlib

/-!
Verification of the `welder` crate (src/src/lib.rs).

The crate provides a consuming-builder accumulator `Welder<G, T>` holding a
glue value and an accumulated destination container.  We embed it for
sequence-like destinations: the destination is a `List α`, the glue a value
of the same element type `α` (in the source, appending glue requires
`T: Extend<G>`, so for a homogeneous sequence destination glue and elements
share the element type).  Rust's `extend(once(x))` on a sequence appends `x`
at the end, and `extend(iter)` appends all items of the iterator in order.
-/

/-- The `Welder` struct: a glue value and the accumulated destination. -/
structure Welder (α : Type) where
  glue : α
  welded : List α
  deriving Repr, DecidableEq

namespace Welder

variable {α : Type}

/-- `Welder::new(glue)`: empty destination (the `Default` of `Vec`/`String`
is the empty container, i.e. `[]` for lists). -/
def new (glue : α) : Welder α :=
  { glue := glue, welded := [] }

/-- `Welder::weld(self)`: return the accumulated destination. -/
def weld (w : Welder α) : List α :=
  w.welded

/-- `Welder::elem_no_glue`: `self.welded.extend(once(elem))`. -/
def elem_no_glue (w : Welder α) (e : α) : Welder α :=
  { w with welded := w.welded ++ [e] }

/-- `Welder::elems_no_glue`: `self.welded.extend(elems)` (one bulk extend). -/
def elems_no_glue (w : Welder α) (es : List α) : Welder α :=
  { w with welded := w.welded ++ es }

/-- `Welder::with_start(glue, start)`: `Welder::new(glue).elem_no_glue(start)`. -/
def with_start (glue : α) (start : α) : Welder α :=
  (new glue).elem_no_glue start

/-- `Welder::elem_glue_right`: extend with the element, then with a clone of
the glue. -/
def elem_glue_right (w : Welder α) (e : α) : Welder α :=
  { w with welded := w.welded ++ [e] ++ [w.glue] }

/-- `Welder::elems_glue_right`: loop `self = self.elem_glue_right(elem)`. -/
def elems_glue_right (w : Welder α) (es : List α) : Welder α :=
  es.foldl elem_glue_right w

/-- `Welder::elem_glue_left`: extend with a clone of the glue, then with the
element. -/
def elem_glue_left (w : Welder α) (e : α) : Welder α :=
  { w with welded := w.welded ++ [w.glue] ++ [e] }

/-- `Welder::elems_glue_left`: loop `self = self.elem_glue_left(elem)`. -/
def elems_glue_left (w : Welder α) (es : List α) : Welder α :=
  es.foldl elem_glue_left w

/-- `Welder::elem`: delegates to `elem_glue_left`. -/
def elem (w : Welder α) (e : α) : Welder α :=
  w.elem_glue_left e

/-- `Welder::elems`: delegates to `elems_glue_left`. -/
def elems (w : Welder α) (es : List α) : Welder α :=
  w.elems_glue_left es

/-- `Welder::elem_glue_both`: extend with a glue clone, the element, then a
second glue clone. -/
def elem_glue_both (w : Welder α) (e : α) : Welder α :=
  { w with welded := w.welded ++ [w.glue] ++ [e] ++ [w.glue] }

/-- `Welder::elems_glue_both`: loop `self = self.elem_glue_both(elem)`. -/
def elems_glue_both (w : Welder α) (es : List α) : Welder α :=
  es.foldl elem_glue_both w

/-- Modelled from the spec: the constructor `create_from_base(glue, base)` is
not present in src/src/lib.rs (the spec attributes it to another revision of
this repository).  Per the spec it returns an accumulator whose destination is
initialized by value-wise copying an existing base collection, with no glue
inserted for any of the base content. -/
def from_base (glue : α) (base : List α) : Welder α :=
  { glue := glue, welded := base }

end Welder

/-! ### Expected-shape functions (from the spec's stated results) -/

/-- Shape `[g, e1, g, e2, ..., g, en]` expected of glue-left. -/
def glueLeftShape (g : α) : List α → List α
  | [] => []
  | e :: es => g :: e :: glueLeftShape g es

/-- Shape `[e1, g, e2, g, ..., en, g]` expected of glue-right. -/
def glueRightShape (g : α) : List α → List α
  | [] => []
  | e :: es => e :: g :: glueRightShape g es

/-- Shape `[g, e1, g, g, e2, g, ..., g, en, g]` expected of glue-both. -/
def glueBothShape (g : α) : List α → List α
  | [] => []
  | e :: es => g :: e :: g :: glueBothShape g es

/-! ### Helper lemmas: glue preservation and welded content of folds -/

namespace Welder

variable {α : Type}

lemma glue_foldl_elem_no_glue (es : List α) (w : Welder α) :
    (es.foldl elem_no_glue w).glue = w.glue := by
  induction es generalizing w with
  | nil => rfl
  | cons e es ih => simpa [elem_no_glue] using ih (w.elem_no_glue e)

lemma glue_foldl_elem_glue_left (es : List α) (w : Welder α) :
    (es.foldl elem_glue_left w).glue = w.glue := by
  induction es generalizing w with
  | nil => rfl
  | cons e es ih => simpa [elem_glue_left] using ih (w.elem_glue_left e)

lemma glue_foldl_elem_glue_right (es : List α) (w : Welder α) :
    (es.foldl elem_glue_right w).glue = w.glue := by
  induction es generalizing w with
  | nil => rfl
  | cons e es ih => simpa [elem_glue_right] using ih (w.elem_glue_right e)

lemma glue_foldl_elem_glue_both (es : List α) (w : Welder α) :
    (es.foldl elem_glue_both w).glue = w.glue := by
  induction es generalizing w with
  | nil => rfl
  | cons e es ih => simpa [elem_glue_both] using ih (w.elem_glue_both e)

lemma welded_foldl_elem_no_glue (es : List α) (w : Welder α) :
    (es.foldl elem_no_glue w).welded = w.welded ++ es := by
  induction es generalizing w with
  | nil => simp
  | cons e es ih =>
    simpa [elem_no_glue, List.append_assoc] using ih (w.elem_no_glue e)

lemma welded_foldl_elem_glue_left (es : List α) (w : Welder α) :
    (es.foldl elem_glue_left w).welded = w.welded ++ glueLeftShape w.glue es := by
  induction es generalizing w with
  | nil => simp [glueLeftShape]
  | cons e es ih =>
    simpa [elem_glue_left, glueLeftShape, List.append_assoc]
      using ih (w.elem_glue_left e)

lemma welded_foldl_elem_glue_right (es : List α) (w : Welder α) :
    (es.foldl elem_glue_right w).welded = w.welded ++ glueRightShape w.glue es := by
  induction es generalizing w with
  | nil => simp [glueRightShape]
  | cons e es ih =>
    simpa [elem_glue_right, glueRightShape, List.append_assoc]
      using ih (w.elem_glue_right e)

lemma welded_foldl_elem_glue_both (es : List α) (w : Welder α) :
    (es.foldl elem_glue_both w).welded = w.welded ++ glueBothShape w.glue es := by
  induction es generalizing w with
  | nil => simp [glueBothShape]
  | cons e es ih =>
    simpa [elem_glue_both, glueBothShape, List.append_assoc]
      using ih (w.elem_glue_both e)

end Welder

/-! ### A syntax of append operations, for frame and monotonicity claims -/

/-- One append call on a `Welder`: each of the four placement policies, in its
single-element and batch form. -/
inductive WeldOp (α : Type) where
  | noGlueOne (e : α)
  | noGlueMany (es : List α)
  | glueLeftOne (e : α)
  | glueLeftMany (es : List α)
  | glueRightOne (e : α)
  | glueRightMany (es : List α)
  | glueBothOne (e : α)
  | glueBothMany (es : List α)

/-- Run one append call on a `Welder`. -/
def WeldOp.run {α : Type} (op : WeldOp α) (w : Welder α) : Welder α :=
  match op with
  | noGlueOne e => w.elem_no_glue e
  | noGlueMany es => w.elems_no_glue es
  | glueLeftOne e => w.elem_glue_left e
  | glueLeftMany es => w.elems_glue_left es
  | glueRightOne e => w.elem_glue_right e
  | glueRightMany es => w.elems_glue_right es
  | glueBothOne e => w.elem_glue_both e
  | glueBothMany es => w.elems_glue_both es

namespace Welder

variable {α : Type}

lemma glue_run (op : WeldOp α) (w : Welder α) : (op.run w).glue = w.glue := by
  cases op with
  | noGlueOne e => rfl
  | noGlueMany es => rfl
  | glueLeftOne e => rfl
  | glueLeftMany es => exact glue_foldl_elem_glue_left es w
  | glueRightOne e => rfl
  | glueRightMany es => exact glue_foldl_elem_glue_right es w
  | glueBothOne e => rfl
  | glueBothMany es => exact glue_foldl_elem_glue_both es w

end Welder

/-! ### Claims -/

/-- Claim C1: for every glue `g` and elements `e1..en` appended one at a time
with the glue-left policy (`elem`, equivalently `elem_glue_left`) starting from
`Welder::new(g)`, `weld()` returns `[g, e1, g, e2, ..., g, en]`. -/
theorem claim1_glue_left_weld {α : Type} (g : α) (es : List α) :
    (es.foldl Welder.elem (Welder.new g)).weld = glueLeftShape g es ∧
    (es.foldl Welder.elem_glue_left (Welder.new g)).weld = glueLeftShape g es := by
  have h : (es.foldl Welder.elem_glue_left (Welder.new g)).weld = glueLeftShape g es := by
    simpa [Welder.weld, Welder.new] using
      Welder.welded_foldl_elem_glue_left es (Welder.new g)
  have he : Welder.elem (α := α) = Welder.elem_glue_left := rfl
  exact ⟨by rw [he]; exact h, h⟩

/-- Claim C2: each batch append (`elems_no_glue`, `elems_glue_left`,
`elems_glue_right`, `elems_glue_both`) produces exactly the accumulator
obtained by applying the corresponding single-element append to each element
of the input in iteration order. -/
theorem claim2_batch_eq_repeated_single {α : Type} (w : Welder α) (es : List α) :
    w.elems_no_glue es = es.foldl Welder.elem_no_glue w ∧
    w.elems_glue_left es = es.foldl Welder.elem_glue_left w ∧
    w.elems_glue_right es = es.foldl Welder.elem_glue_right w ∧
    w.elems_glue_both es = es.foldl Welder.elem_glue_both w := by
  refine ⟨?_, rfl, rfl, rfl⟩
  induction es generalizing w with
  | nil => simp [Welder.elems_no_glue]
  | cons e es ih =>
    have := ih (w.elem_no_glue e)
    simp only [List.foldl_cons]
    rw [← this]
    simp [Welder.elems_no_glue, Welder.elem_no_glue, List.append_assoc]

/-- Claim C3: glue-both appends of `e1..en` from `Welder::new(g)` weld to
`[g, e1, g, g, e2, g, ..., g, en, g]`: each element surrounded by its own glue
duplicates, so interior adjacent elements are separated by two glue copies. -/
theorem claim3_glue_both_weld {α : Type} (g : α) (es : List α) :
    (es.foldl Welder.elem_glue_both (Welder.new g)).weld = glueBothShape g es := by
  simpa [Welder.weld, Welder.new] using
    Welder.welded_foldl_elem_glue_both es (Welder.new g)

/-- Claim C4: glue-right appends of `e1..en` from `Welder::new(g)` weld to
`[e1, g, e2, g, ..., en, g]`. -/
theorem claim4_glue_right_weld {α : Type} (g : α) (es : List α) :
    (es.foldl Welder.elem_glue_right (Welder.new g)).weld = glueRightShape g es := by
  simpa [Welder.weld, Welder.new] using
    Welder.welded_foldl_elem_glue_right es (Welder.new g)

/-- Claim C5: `with_start(g, e1)` followed by glue-left appends of `e2..en`
welds to `[e1, g, e2, ..., g, en]` (no leading glue before `e1`), and this is
not in general equal to starting from `Welder::new(g)` and glue-left-appending
all of `[e1, e2, ..., en]` (witnessed at `g = 0`, element `1`). -/
theorem claim5_with_start_no_leading_glue :
    (∀ (α : Type) (g e1 : α) (es : List α),
      (es.foldl Welder.elem_glue_left (Welder.with_start g e1)).weld =
        e1 :: glueLeftShape g es) ∧
    ((([] : List Nat).foldl Welder.elem_glue_left (Welder.with_start 0 1)).weld ≠
      ([1].foldl Welder.elem_glue_left (Welder.new (0 : Nat))).weld) := by
  constructor
  · intro α g e1 es
    simpa [Welder.weld, Welder.with_start, Welder.new, Welder.elem_no_glue] using
      Welder.welded_foldl_elem_glue_left es (Welder.with_start g e1)
  · decide

/-- Claim C6: no-glue appends of `e1..en` from `Welder::new(g)` (single form
`elem_no_glue`, or batch form `elems_no_glue`) weld to exactly
`[e1, e2, ..., en]` with no glue insertions. -/
theorem claim6_no_glue_weld {α : Type} (g : α) (es : List α) :
    (es.foldl Welder.elem_no_glue (Welder.new g)).weld = es ∧
    ((Welder.new g).elems_no_glue es).weld = es := by
  constructor
  · simpa [Welder.weld, Welder.new] using
      Welder.welded_foldl_elem_no_glue es (Welder.new g)
  · simp [Welder.weld, Welder.new, Welder.elems_no_glue]

/-- Claim C7: `Welder::new(g)` followed immediately by `weld()` returns the
destination type's empty (default) value. -/
theorem claim7_new_weld_empty {α : Type} (g : α) :
    (Welder.new g).weld = ([] : List α) := rfl

/-- Claim C8: every append operation (all four policies, single and batch
forms) leaves the glue field unchanged, and after any finite sequence of
appends the glue field still equals the value supplied at construction. -/
theorem claim8_glue_preserved {α : Type} :
    (∀ (op : WeldOp α) (w : Welder α), (op.run w).glue = w.glue) ∧
    (∀ (ops : List (WeldOp α)) (g : α),
      (ops.foldl (fun w op => op.run w) (Welder.new g)).glue = g) := by
  refine ⟨Welder.glue_run, ?_⟩
  intro ops g
  suffices h : ∀ (w : Welder α), (ops.foldl (fun w op => op.run w) w).glue = w.glue by
    simpa [Welder.new] using h (Welder.new g)
  induction ops with
  | nil => intro w; rfl
  | cons op ops ih =>
    intro w
    simpa [Welder.glue_run] using ih (op.run w)

/-- Claim C9: the constructor `create_from_base(glue, base)` (modelled from
the spec, absent from src) initializes the destination by value-wise copying
the base collection, with no glue inserted for any of the base content: its
weld is exactly the base, and its glue is the supplied glue. -/
theorem claim9_from_base {α : Type} (g : α) (base : List α) :
    (Welder.from_base g base).weld = base ∧ (Welder.from_base g base).glue = g :=
  ⟨rfl, rfl⟩

/-- Claim C10: every append operation is monotone over the accumulated
container: the new accumulated value equals the old one extended at its end
with the newly inserted items; accumulated content is never removed,
reordered, or modified. -/
theorem claim10_append_monotone {α : Type} (op : WeldOp α) (w : Welder α) :
    ∃ s : List α, (op.run w).welded = w.welded ++ s := by
  cases op with
  | noGlueOne e => exact ⟨[e], rfl⟩
  | noGlueMany es => exact ⟨es, rfl⟩
  | glueLeftOne e =>
    exact ⟨[w.glue, e], by simp [WeldOp.run, Welder.elem_glue_left]⟩
  | glueLeftMany es =>
    exact ⟨glueLeftShape w.glue es, Welder.welded_foldl_elem_glue_left es w⟩
  | glueRightOne e =>
    exact ⟨[e, w.glue], by simp [WeldOp.run, Welder.elem_glue_right]⟩
  | glueRightMany es =>
    exact ⟨glueRightShape w.glue es, Welder.welded_foldl_elem_glue_right es w⟩
  | glueBothOne e =>
    exact ⟨[w.glue, e, w.glue], by simp [WeldOp.run, Welder.elem_glue_both]⟩
  | glueBothMany es =>
    exact ⟨glueBothShape w.glue es, Welder.welded_foldl_elem_glue_both es w⟩
